import Mathlib

/-! Verification development for the group-access bot
(`src/group_access_bot.py`).

Shallow embedding conventions:
* Timestamps (`datetime`) are rationals counting seconds; `datetime.now()`
  becomes an explicit `now : ℚ` argument threaded through each operation.
  `timedelta(hours=h)` is `h * 3600` seconds, so fractional hours are exact.
* The `DataManager.users` dict (`Dict[int, UserData]`) is a `List UserData`;
  dict insertion order is append-at-end, lookup is first match on `user_id`
  (Python dicts have unique keys, so where a proof needs uniqueness it takes
  a `Nodup` hypothesis on the list of ids).
* Persistence (`save_data`) is write-through and keeps the in-memory state
  authoritative, so store mutations are modelled directly on the list; the
  serialized form is modelled separately for the round-trip property.
* Telegram transport calls (ban/unban, send_message, approve) either succeed
  or raise; an `Env` of per-target failure flags models which ones raise,
  and successful side effects are recorded as an `Action` trace.
-/

namespace GroupAccessBot

/-- Python `class UserData`: per-user grant record (`user_id`, `username`,
`expires_at`, `warning_sent`). A fresh record has no expiry and no warning. -/
structure UserData where
  user_id : Nat
  username : Option String
  expires_at : Option ℚ
  warning_sent : Bool
deriving DecidableEq, Repr

/-- Constructor `UserData.__init__`: `expires_at = None`, `warning_sent = False`. -/
def mkUserData (user_id : Nat) (username : Option String) : UserData :=
  { user_id := user_id, username := username, expires_at := none, warning_sent := false }

/-- Lookup `DataManager.get_user`: dict lookup by id (first matching record). -/
def get_user (store : List UserData) (uid : Nat) : Option UserData :=
  store.find? (fun u => u.user_id == uid)

/-- Replace every record keyed `uid` by `f` of it (Python mutates the single
dict entry in place; on a unique-key store this is the same). -/
def updateUser (store : List UserData) (uid : Nat) (f : UserData → UserData) :
    List UserData :=
  store.map (fun u => if u.user_id == uid then f u else u)

/-- The `if username:` branch of `add_or_update_user`: Python truthiness, so
`None` and the empty string both leave the stored username alone. -/
def applyUsername (username : Option String) (u : UserData) : UserData :=
  match username with
  | none => u
  | some s => if s = "" then u else { u with username := some s }

/-- The `if hours is not None:` branch of `add_or_update_user`: an active
record (`expires_at > now`) is extended, otherwise the expiry restarts at
`now + hours`; either way `warning_sent` is cleared. -/
def applyHours (now : ℚ) (hours : Option ℚ) (u : UserData) : UserData :=
  match hours with
  | none => u
  | some h =>
      let newExp : ℚ :=
        match u.expires_at with
        | some e => if now < e then e + h * 3600 else now + h * 3600
        | none => now + h * 3600
      { u with expires_at := some newExp, warning_sent := false }

/-- Upsert `DataManager.add_or_update_user(user_id, username, hours)`: create the
record if absent (appended, as dict insertion does), update username and
expiry, persist, and return the resulting record. -/
def add_or_update_user (store : List UserData) (now : ℚ) (user_id : Nat)
    (username : Option String) (hours : Option ℚ) : List UserData × UserData :=
  let store1 := if (get_user store user_id).isSome then store
                else store ++ [mkUserData user_id username]
  let store2 := updateUser store1 user_id (fun u => applyHours now hours (applyUsername username u))
  (store2, (get_user store2 user_id).getD (mkUserData user_id username))

/-- Deletion `DataManager.remove_user`: delete the dict entry if present, persist. -/
def remove_user (store : List UserData) (uid : Nat) : List UserData :=
  store.filter (fun u => u.user_id ≠ uid)

/-- Predicate `DataManager.has_valid_access`: a record exists and its `expires_at` is
set and strictly in the future. -/
def has_valid_access (store : List UserData) (now : ℚ) (uid : Nat) : Bool :=
  match get_user store uid with
  | none => false
  | some u =>
      match u.expires_at with
      | none => false
      | some e => decide (now < e)

/-- Membership test `VIPManager.is_vip`: allowlist membership. -/
def is_vip (vip_users : List Nat) (uid : Nat) : Bool :=
  vip_users.contains uid

/-- The JSON object `UserData.to_dict` produces. The `expires_at` field holds
`self.expires_at.isoformat()`; since `datetime.isoformat` / `fromisoformat`
are mutually inverse on naive datetimes (microsecond precision preserved) and
an ISO string is never empty, the serialized timestamp is modelled by the
instant it denotes, with `none` for the JSON `null`. -/
structure UserDict where
  user_id : Nat
  username : Option String
  expires_at : Option ℚ
  warning_sent : Bool
deriving DecidableEq, Repr

/-- Serializer `UserData.to_dict`. -/
def to_dict (u : UserData) : UserDict :=
  { user_id := u.user_id, username := u.username,
    expires_at := u.expires_at, warning_sent := u.warning_sent }

/-- Parser `UserData.from_dict`: rebuild the record; `if data.get('expires_at'):`
parses the timestamp only when the field is present (ISO strings are
non-empty, so truthiness is `isSome`); `warning_sent` defaults to `False`
when absent — the dicts written by `to_dict` always carry it. -/
def from_dict (d : UserDict) : UserData :=
  { user_id := d.user_id, username := d.username,
    expires_at := match d.expires_at with
                  | some e => some e
                  | none => none,
    warning_sent := d.warning_sent }

/-- Writer `DataManager.save_data`: dump `{str(uid): user.to_dict()}`. The key is
`str(uid)` in the JSON file; since `str`/`int` are mutually inverse on ids,
the key is modelled by the id itself. -/
def save_data (store : List UserData) : List (Nat × UserDict) :=
  store.map (fun u => (u.user_id, to_dict u))

/-- Reader `DataManager.load_data`: `{int(uid): UserData.from_dict(udata)}`. -/
def load_data (file : List (Nat × UserDict)) : List UserData :=
  file.map (fun p => from_dict p.2)

/-- Formatter `format_time_remaining(expires_at)` with `datetime.now()` made explicit.
`delta.days`/`delta.seconds` of a positive `timedelta` are
`⌊total⌋ / 86400` and `⌊total⌋ % 86400` where `total` is the delta in
seconds, so the embedding truncates the (positive) delta to a `Nat` first. -/
def format_time_remaining (now expires_at : ℚ) : String :=
  if expires_at ≤ now then "⏰ Истекло"
  else
    let t : Nat := (⌊expires_at - now⌋).toNat
    let days : Nat := t / 86400
    let hours : Nat := (t % 86400) / 3600
    let minutes : Nat := ((t % 86400) % 3600) / 60
    let parts : List String :=
      (if 0 < days then [toString days ++ "д"] else []) ++
      (if 0 < hours then [toString hours ++ "ч"] else []) ++
      (if 0 < minutes ∧ days = 0 then [toString minutes ++ "м"] else [])
    if parts = [] then "< 1м" else " ".intercalate parts

/-- Outcome of `handle_join_request`. The handler never calls
`join_request.decline()`, but the platform offers it, so `declined` is a
possible outcome a priori and the theorem shows it is never produced. -/
inductive JoinOutcome where
  | approvedVip
  | approvedActive
  | declined
  | leftPending (adminMsgs : List String)
deriving DecidableEq, Repr

/-- Fallback `username = join_request.from_user.username or str(user_id)`: Python `or`
falls back to the id for `None` or `""`. -/
def join_request_name (user_id : Nat) (username : Option String) : String :=
  match username with
  | some s => if s = "" then toString user_id else s
  | none => toString user_id

/-- Handler `handle_join_request`: VIPs are approved at once; else a valid grant is
approved; else the request is left open and every admin gets the configured
`DECLINED_MESSAGE` (an arbitrary template here) plus the `/add <id>` hint. -/
def handle_join_request (vips : List Nat) (store : List UserData) (now : ℚ)
    (user_id : Nat) (username : Option String) (admin_ids : List Nat)
    (declinedMessage : String → String) : JoinOutcome :=
  if is_vip vips user_id then .approvedVip
  else if has_valid_access store now user_id then .approvedActive
  else .leftPending (admin_ids.map (fun _ =>
    declinedMessage ("@" ++ join_request_name user_id username) ++
      "\n\nℹ️ Заявка висит. Добавьте доступ командой:\n/add " ++ toString user_id))

/-- Result reported back to the admin by the grant-entry handlers. -/
inductive GrantAttempt where
  | invalidDuration
  | missingUser
  | invalidId
  | alreadyVip
  | granted (u : UserData)
deriving DecidableEq, Repr

/-- Handler `process_custom_hours`: free-form hours entry. `hours <= 0` is answered
with an error and nothing else happens; otherwise the id remembered in the
FSM state receives the grant. (Parsing `float(text)` is out of scope: the
handler is modelled from the parsed value on.) -/
def process_custom_hours (store : List UserData) (now : ℚ)
    (stateUserId : Option Nat) (hours : ℚ) : List UserData × GrantAttempt :=
  if hours ≤ 0 then (store, .invalidDuration)
  else
    match stateUserId with
    | none => (store, .missingUser)
    | some uid =>
        let r := add_or_update_user store now uid none (some hours)
        (r.1, .granted r.2)

/-- Handler `callback_add_time`: preset-duration button. The hours come straight from
the callback payload and are applied with no validation of sign or of
allowlist membership. -/
def callback_add_time (store : List UserData) (now : ℚ) (user_id : Nat)
    (hours : ℚ) : List UserData × GrantAttempt :=
  let r := add_or_update_user store now user_id none (some hours)
  (r.1, .granted r.2)

/-- Handler `process_user_id`: the id-entry step of `/add`. `resolve_user_identifier`
yields an id only for all-digit input (modelled as the `Option Nat` input);
`if not user_id and not username:` makes a zero id fall into the
invalid-format branch by truthiness; a VIP id is rejected; otherwise the
record is created (or its username refreshed) with no hours. -/
def process_user_id (vips : List Nat) (store : List UserData) (now : ℚ)
    (input : Option Nat) : List UserData × GrantAttempt :=
  match input with
  | none => (store, .invalidId)
  | some uid =>
      if uid = 0 then (store, .invalidId)
      else if is_vip vips uid then (store, .alreadyVip)
      else
        let r := add_or_update_user store now uid none none
        (r.1, .granted r.2)

/-- Which transport calls raise, per target id. `banUnbanFails uid` covers
the `ban_chat_member`/`unban_chat_member` pair in `kick_user` (either call
raising reaches the surrounding `except`); the notify flags cover
`send_message` to that user or admin, always wrapped in their own
`try/except ... pass`. -/
structure Env where
  banUnbanFails : Nat → Bool
  userNotifyFails : Nat → Bool
  adminNotifyFails : Nat → Bool

/-- The configuration and transport surrounding the sweeper:
`ADMIN_IDS`, `WARNING_HOURS`, the VIP allowlist, and the failure model. -/
structure SweepCtx where
  env : Env
  vips : List Nat
  admin_ids : List Nat
  warning_hours : ℚ

/-- A transport side effect that actually happened (a raising call leaves no
action). -/
inductive Action where
  | banUnban (uid : Nat)
  | notifyUserKick (uid : Nat)
  | notifyAdminKick (admin uid : Nat)
  | notifyUserWarning (uid : Nat)
  | notifyAdminWarning (admin uid : Nat)
deriving DecidableEq, Repr

/-- The user an action concerns. -/
def Action.subject : Action → Nat
  | .banUnban uid => uid
  | .notifyUserKick uid => uid
  | .notifyAdminKick _ uid => uid
  | .notifyUserWarning uid => uid
  | .notifyAdminWarning _ uid => uid

/-- Whether an action is one of the near-expiry warnings. -/
def Action.isWarning : Action → Bool
  | .notifyUserWarning _ => true
  | .notifyAdminWarning _ _ => true
  | _ => false

/-- Revocation `kick_user`: ban+unban (a raise here hits the outer `except`, so nothing
afterwards runs and the record survives); then best-effort notification of
the user and each admin; then `remove_user`, which deletes the record and
persists. -/
def kick_user (ctx : SweepCtx) (store : List UserData) (uid : Nat) :
    List UserData × List Action :=
  if ctx.env.banUnbanFails uid then (store, [])
  else
    let userActs : List Action :=
      if ctx.env.userNotifyFails uid then [] else [.notifyUserKick uid]
    let adminActs : List Action :=
      ctx.admin_ids.filterMap (fun a =>
        if ctx.env.adminNotifyFails a then none else some (.notifyAdminKick a uid))
    (remove_user store uid, .banUnban uid :: (userActs ++ adminActs))

/-- Warning path `send_warning`: re-read the record (return silently if it vanished or has
no expiry), best-effort notify the user and each admin, then set
`warning_sent = True` on the stored record and persist. -/
def send_warning (ctx : SweepCtx) (store : List UserData) (uid : Nat) :
    List UserData × List Action :=
  match get_user store uid with
  | none => (store, [])
  | some u =>
      match u.expires_at with
      | none => (store, [])
      | some _ =>
          let userActs : List Action :=
            if ctx.env.userNotifyFails uid then [] else [.notifyUserWarning uid]
          let adminActs : List Action :=
            ctx.admin_ids.filterMap (fun a =>
              if ctx.env.adminNotifyFails a then none
              else some (.notifyAdminWarning a uid))
          (updateUser store uid (fun v => { v with warning_sent := true }),
           userActs ++ adminActs)

/-- One iteration of the `for user in users:` loop of `check_users_task`,
driven by the snapshot record `u`: skip when `expires_at` is unset; kick when
lapsed; warn when `time_until_expire = (expires_at - now) / 3600` is within
`WARNING_HOURS`, no warning was sent yet, and the user is not VIP. -/
def sweep_step (ctx : SweepCtx) (now : ℚ) (store : List UserData)
    (u : UserData) : List UserData × List Action :=
  match u.expires_at with
  | none => (store, [])
  | some e =>
      if e ≤ now then kick_user ctx store u.user_id
      else if (e - now) / 3600 ≤ ctx.warning_hours ∧ u.warning_sent = false ∧
              is_vip ctx.vips u.user_id = false then
        send_warning ctx store u.user_id
      else (store, [])

/-- The whole loop: the snapshot (`get_all_users()` taken once) is walked
while the store evolves underneath; effects accumulate in order. -/
def sweep_users (ctx : SweepCtx) (now : ℚ) :
    List UserData → List UserData → List UserData × List Action
  | store, [] => (store, [])
  | store, u :: rest =>
      let r1 := sweep_step ctx now store u
      let r2 := sweep_users ctx now r1.1 rest
      (r2.1, r1.2 ++ r2.2)

/-- One tick of `check_users_task`: snapshot the store, then sweep it. -/
def check_users_tick (ctx : SweepCtx) (now : ℚ) (store : List UserData) :
    List UserData × List Action :=
  sweep_users ctx now store store

/-! Store lemmas. -/

/-- The ids present in a store. -/
def storeIds (store : List UserData) : List Nat :=
  store.map (fun u => u.user_id)

theorem storeIds_cons {u : UserData} {rest : List UserData} :
    storeIds (u :: rest) = u.user_id :: storeIds rest := rfl

theorem mem_storeIds {store : List UserData} {uid : Nat} :
    uid ∈ storeIds store ↔ ∃ u ∈ store, u.user_id = uid := by
  simp [storeIds, eq_comm]

theorem get_user_cons {u : UserData} {rest : List UserData} {uid : Nat} :
    get_user (u :: rest) uid = if u.user_id = uid then some u else get_user rest uid := by
  by_cases hu : u.user_id = uid
  · rw [get_user, List.find?_cons_of_pos _ (by simp [hu]), if_pos hu]
  · rw [get_user, List.find?_cons_of_neg _ (by simp [hu]), if_neg hu]; rfl

theorem remove_user_cons {u : UserData} {rest : List UserData} {uid : Nat} :
    remove_user (u :: rest) uid =
      if u.user_id = uid then remove_user rest uid else u :: remove_user rest uid := by
  by_cases hu : u.user_id = uid <;> simp [remove_user, List.filter_cons, hu]

theorem updateUser_cons {u : UserData} {rest : List UserData} {uid : Nat}
    {f : UserData → UserData} :
    updateUser (u :: rest) uid f =
      (if u.user_id = uid then f u else u) :: updateUser rest uid f := by
  by_cases hu : u.user_id = uid <;> simp [updateUser, hu]

theorem get_user_eq_none {store : List UserData} {uid : Nat} :
    get_user store uid = none ↔ uid ∉ storeIds store := by
  induction store with
  | nil => simp [get_user, storeIds]
  | cons u rest ih =>
      rw [get_user_cons, storeIds_cons]
      by_cases hu : u.user_id = uid
      · simp [hu]
      · simp only [if_neg hu, List.mem_cons, not_or, ih]
        exact ⟨fun h => ⟨fun he => hu he.symm, h⟩, fun h => h.2⟩

theorem get_user_mem {store : List UserData} {uid : Nat} {w : UserData}
    (h : get_user store uid = some w) : w ∈ store ∧ w.user_id = uid := by
  refine ⟨List.mem_of_find?_eq_some h, ?_⟩
  have := List.find?_some h
  simpa using this

theorem get_user_append {s t : List UserData} {uid : Nat}
    (h : get_user s uid = none) : get_user (s ++ t) uid = get_user t uid := by
  unfold get_user at *
  rw [List.find?_append, h, Option.none_or]

theorem get_user_remove_self (store : List UserData) (uid : Nat) :
    get_user (remove_user store uid) uid = none := by
  induction store with
  | nil => rfl
  | cons u rest ih =>
      rw [remove_user_cons]
      by_cases hu : u.user_id = uid
      · rw [if_pos hu]; exact ih
      · rw [if_neg hu, get_user_cons, if_neg hu]; exact ih

theorem not_mem_storeIds_remove (store : List UserData) (uid : Nat) :
    uid ∉ storeIds (remove_user store uid) :=
  get_user_eq_none.mp (get_user_remove_self store uid)

theorem get_user_remove_ne {store : List UserData} {uid uid' : Nat}
    (h : uid' ≠ uid) : get_user (remove_user store uid') uid = get_user store uid := by
  induction store with
  | nil => rfl
  | cons u rest ih =>
      rw [remove_user_cons, get_user_cons]
      by_cases hu : u.user_id = uid'
      · rw [if_pos hu, if_neg (fun he => h (hu ▸ he)), ih]
      · rw [if_neg hu, get_user_cons]
        by_cases hid : u.user_id = uid
        · rw [if_pos hid, if_pos hid]
        · rw [if_neg hid, if_neg hid, ih]

theorem get_user_update_self {store : List UserData} {uid : Nat}
    {f : UserData → UserData} (hf : ∀ u, (f u).user_id = u.user_id) :
    get_user (updateUser store uid f) uid = (get_user store uid).map f := by
  induction store with
  | nil => rfl
  | cons u rest ih =>
      rw [updateUser_cons, get_user_cons, get_user_cons]
      by_cases hu : u.user_id = uid
      · rw [if_pos hu, if_pos hu, if_pos (by rw [hf, hu])]; rfl
      · rw [if_neg hu, if_neg hu, if_neg hu, ih]

theorem get_user_update_ne {store : List UserData} {uid uid' : Nat}
    {f : UserData → UserData} (hf : ∀ u, (f u).user_id = u.user_id)
    (h : uid' ≠ uid) :
    get_user (updateUser store uid' f) uid = get_user store uid := by
  induction store with
  | nil => rfl
  | cons u rest ih =>
      rw [updateUser_cons, get_user_cons, get_user_cons]
      by_cases hu : u.user_id = uid'
      · rw [if_pos hu, if_neg (by rw [hf, hu]; exact fun he => h he),
          if_neg (fun he => h (hu ▸ he)), ih]
      · rw [if_neg hu]
        by_cases hid : u.user_id = uid
        · rw [if_pos hid, if_pos hid]
        · rw [if_neg hid, if_neg hid, ih]

theorem storeIds_remove_sublist (store : List UserData) (uid : Nat) :
    (storeIds (remove_user store uid)).Sublist (storeIds store) :=
  List.Sublist.map _ (List.filter_sublist store)

theorem storeIds_update {store : List UserData} {uid : Nat}
    {f : UserData → UserData} (hf : ∀ u, (f u).user_id = u.user_id) :
    storeIds (updateUser store uid f) = storeIds store := by
  simp only [storeIds, updateUser, List.map_map]
  apply List.map_congr_left
  intro u _
  by_cases hu : u.user_id = uid <;> simp [hu, hf]

/-! Sweeper lemmas. -/

theorem applyUsername_user_id (username : Option String) (u : UserData) :
    (applyUsername username u).user_id = u.user_id := by
  cases username with
  | none => rfl
  | some s => by_cases hs : s = "" <;> simp [applyUsername, hs]

theorem applyHours_user_id (now : ℚ) (hours : Option ℚ) (u : UserData) :
    (applyHours now hours u).user_id = u.user_id := by
  cases hours with
  | none => rfl
  | some h => rfl

theorem send_warning_of_none {ctx : SweepCtx} {store : List UserData} {uid : Nat}
    (h : get_user store uid = none) : send_warning ctx store uid = (store, []) := by
  unfold send_warning
  rw [h]

theorem send_warning_of_noexp {ctx : SweepCtx} {store : List UserData} {uid : Nat}
    {v : UserData} (h : get_user store uid = some v) (hv : v.expires_at = none) :
    send_warning ctx store uid = (store, []) := by
  unfold send_warning
  rw [h]
  dsimp only
  rw [hv]

theorem send_warning_of_exp (ctx : SweepCtx) {store : List UserData} {uid : Nat}
    {v : UserData} {e : ℚ} (h : get_user store uid = some v)
    (hv : v.expires_at = some e) :
    send_warning ctx store uid =
      (updateUser store uid (fun w => { w with warning_sent := true }),
       (if ctx.env.userNotifyFails uid then [] else [Action.notifyUserWarning uid]) ++
       ctx.admin_ids.filterMap (fun a =>
         if ctx.env.adminNotifyFails a then none
         else some (Action.notifyAdminWarning a uid))) := by
  unfold send_warning
  rw [h]
  dsimp only
  rw [hv]

theorem sweep_step_of_noexp {ctx : SweepCtx} {now : ℚ} {store : List UserData}
    {u : UserData} (hexp : u.expires_at = none) :
    sweep_step ctx now store u = (store, []) := by
  unfold sweep_step
  rw [hexp]

theorem sweep_step_of_exp {ctx : SweepCtx} {now : ℚ} {store : List UserData}
    {u : UserData} {e : ℚ} (hexp : u.expires_at = some e) :
    sweep_step ctx now store u =
      if e ≤ now then kick_user ctx store u.user_id
      else if (e - now) / 3600 ≤ ctx.warning_hours ∧ u.warning_sent = false ∧
              is_vip ctx.vips u.user_id = false then
        send_warning ctx store u.user_id
      else (store, []) := by
  unfold sweep_step
  rw [hexp]

theorem sweep_step_ids_sublist (ctx : SweepCtx) (now : ℚ)
    (store : List UserData) (u : UserData) :
    (storeIds (sweep_step ctx now store u).1).Sublist (storeIds store) := by
  cases hexp : u.expires_at with
  | none => rw [sweep_step_of_noexp hexp]
  | some e =>
      rw [sweep_step_of_exp hexp]
      by_cases hle : e ≤ now
      · rw [if_pos hle]
        unfold kick_user
        by_cases hban : ctx.env.banUnbanFails u.user_id
        · rw [if_pos hban]
        · rw [if_neg hban]; exact storeIds_remove_sublist store u.user_id
      · rw [if_neg hle]
        by_cases hc : (e - now) / 3600 ≤ ctx.warning_hours ∧ u.warning_sent = false ∧
            is_vip ctx.vips u.user_id = false
        · rw [if_pos hc]
          cases hget : get_user store u.user_id with
          | none => rw [send_warning_of_none hget]
          | some v =>
              cases hv : v.expires_at with
              | none => rw [send_warning_of_noexp hget hv]
              | some e2 =>
                  rw [send_warning_of_exp ctx hget hv]
                  rw [show (storeIds
                      (updateUser store u.user_id fun w => { w with warning_sent := true })) =
                      storeIds store from storeIds_update (fun w => rfl)]
        · rw [if_neg hc]

theorem sweep_step_not_mem {ctx : SweepCtx} {now : ℚ} {store : List UserData}
    {u : UserData} {uid : Nat} (h : uid ∉ storeIds store) :
    uid ∉ storeIds (sweep_step ctx now store u).1 :=
  fun hmem => h ((sweep_step_ids_sublist ctx now store u).subset hmem)

theorem sweep_users_not_mem {ctx : SweepCtx} {now : ℚ} {uid : Nat} :
    ∀ {snap store : List UserData}, uid ∉ storeIds store →
      uid ∉ storeIds (sweep_users ctx now store snap).1 := by
  intro snap
  induction snap with
  | nil => intro store h; exact h
  | cons u rest ih =>
      intro store h
      exact ih (sweep_step_not_mem h)

theorem sweep_step_frame {ctx : SweepCtx} {now : ℚ} {store : List UserData}
    {u : UserData} {uid : Nat} (h : u.user_id ≠ uid) :
    get_user (sweep_step ctx now store u).1 uid = get_user store uid := by
  cases hexp : u.expires_at with
  | none => rw [sweep_step_of_noexp hexp]
  | some e =>
      rw [sweep_step_of_exp hexp]
      by_cases hle : e ≤ now
      · rw [if_pos hle]
        unfold kick_user
        by_cases hban : ctx.env.banUnbanFails u.user_id
        · rw [if_pos hban]
        · rw [if_neg hban]; exact get_user_remove_ne h
      · rw [if_neg hle]
        by_cases hc : (e - now) / 3600 ≤ ctx.warning_hours ∧ u.warning_sent = false ∧
            is_vip ctx.vips u.user_id = false
        · rw [if_pos hc]
          cases hget : get_user store u.user_id with
          | none => rw [send_warning_of_none hget]
          | some v =>
              cases hv : v.expires_at with
              | none => rw [send_warning_of_noexp hget hv]
              | some e2 =>
                  rw [send_warning_of_exp ctx hget hv]
                  exact get_user_update_ne (fun w => rfl) h
        · rw [if_neg hc]

theorem kick_user_subject {ctx : SweepCtx} {store : List UserData} {uid : Nat} :
    ∀ a ∈ (kick_user ctx store uid).2, a.subject = uid := by
  intro a ha
  unfold kick_user at ha
  by_cases hban : ctx.env.banUnbanFails uid
  · rw [if_pos hban] at ha; simp at ha
  · rw [if_neg hban] at ha
    simp only [List.mem_cons, List.mem_append] at ha
    rcases ha with ha | ha | ha
    · rw [ha]; rfl
    · by_cases hun : ctx.env.userNotifyFails uid
      · rw [if_pos hun] at ha; simp at ha
      · rw [if_neg hun] at ha
        simp only [List.mem_singleton] at ha
        rw [ha]; rfl
    · rcases List.mem_filterMap.mp ha with ⟨ad, _, hf⟩
      by_cases hfa : ctx.env.adminNotifyFails ad
      · rw [if_pos hfa] at hf; cases hf
      · rw [if_neg hfa] at hf
        cases hf; rfl

theorem send_warning_subject {ctx : SweepCtx} {store : List UserData} {uid : Nat} :
    ∀ a ∈ (send_warning ctx store uid).2, a.subject = uid := by
  intro a ha
  cases hget : get_user store uid with
  | none => rw [send_warning_of_none hget] at ha; simp at ha
  | some v =>
      cases hv : v.expires_at with
      | none => rw [send_warning_of_noexp hget hv] at ha; simp at ha
      | some e2 =>
          rw [send_warning_of_exp ctx hget hv] at ha
          simp only [List.mem_append] at ha
          rcases ha with ha | ha
          · by_cases hun : ctx.env.userNotifyFails uid
            · rw [if_pos hun] at ha; simp at ha
            · rw [if_neg hun] at ha
              simp only [List.mem_singleton] at ha
              rw [ha]; rfl
          · rcases List.mem_filterMap.mp ha with ⟨ad, _, hf⟩
            by_cases hfa : ctx.env.adminNotifyFails ad
            · rw [if_pos hfa] at hf; cases hf
            · rw [if_neg hfa] at hf
              cases hf; rfl

theorem sweep_step_subject {ctx : SweepCtx} {now : ℚ} {store : List UserData}
    {u : UserData} : ∀ a ∈ (sweep_step ctx now store u).2, a.subject = u.user_id := by
  intro a ha
  cases hexp : u.expires_at with
  | none => rw [sweep_step_of_noexp hexp] at ha; simp at ha
  | some e =>
      rw [sweep_step_of_exp hexp] at ha
      by_cases hle : e ≤ now
      · rw [if_pos hle] at ha
        exact kick_user_subject a ha
      · rw [if_neg hle] at ha
        by_cases hc : (e - now) / 3600 ≤ ctx.warning_hours ∧ u.warning_sent = false ∧
            is_vip ctx.vips u.user_id = false
        · rw [if_pos hc] at ha
          exact send_warning_subject a ha
        · rw [if_neg hc] at ha; simp at ha

theorem sweep_users_subject {ctx : SweepCtx} {now : ℚ} :
    ∀ {snap store : List UserData} {a : Action},
      a ∈ (sweep_users ctx now store snap).2 → a.subject ∈ storeIds snap := by
  intro snap
  induction snap with
  | nil => intro store a ha; simp [sweep_users] at ha
  | cons u rest ih =>
      intro store a ha
      simp only [sweep_users, List.mem_append] at ha
      rw [storeIds_cons]
      rcases ha with ha | ha
      · rw [sweep_step_subject a ha]
        exact List.mem_cons_self _ _
      · exact List.mem_cons_of_mem _ (ih ha)

theorem sweep_users_frame {ctx : SweepCtx} {now : ℚ} {uid : Nat} :
    ∀ {snap store : List UserData}, (∀ v ∈ snap, v.user_id ≠ uid) →
      get_user (sweep_users ctx now store snap).1 uid = get_user store uid := by
  intro snap
  induction snap with
  | nil => intro store _; rfl
  | cons u rest ih =>
      intro store h
      have h1 : get_user (sweep_step ctx now store u).1 uid = get_user store uid :=
        sweep_step_frame (h u (List.mem_cons_self _ _))
      calc get_user (sweep_users ctx now (sweep_step ctx now store u).1 rest).1 uid
          = get_user (sweep_step ctx now store u).1 uid :=
            ih (fun v hv => h v (List.mem_cons_of_mem _ hv))
        _ = get_user store uid := h1

/-- A snapshot record for `uid` whose step is a no-op in every store keeps
`uid`'s stored record intact through the whole sweep. -/
theorem sweep_users_inert_frame {ctx : SweepCtx} {now : ℚ} {uid : Nat} :
    ∀ {snap store : List UserData},
      (∀ v ∈ snap, v.user_id = uid → ∀ s, sweep_step ctx now s v = (s, [])) →
      get_user (sweep_users ctx now store snap).1 uid = get_user store uid := by
  intro snap
  induction snap with
  | nil => intro store _; rfl
  | cons u rest ih =>
      intro store h
      have h1 : get_user (sweep_step ctx now store u).1 uid = get_user store uid := by
        by_cases hu : u.user_id = uid
        · rw [h u (List.mem_cons_self _ _) hu store]
        · exact sweep_step_frame hu
      calc get_user (sweep_users ctx now (sweep_step ctx now store u).1 rest).1 uid
          = get_user (sweep_step ctx now store u).1 uid :=
            ih (fun v hv => h v (List.mem_cons_of_mem _ hv))
        _ = get_user store uid := h1

/-- If every snapshot record for `uid` steps to a no-op, the sweep emits no
action concerning `uid`. -/
theorem sweep_users_no_subject {ctx : SweepCtx} {now : ℚ} {uid : Nat} :
    ∀ {snap store : List UserData},
      (∀ v ∈ snap, v.user_id = uid → ∀ s, sweep_step ctx now s v = (s, [])) →
      ∀ a ∈ (sweep_users ctx now store snap).2, a.subject ≠ uid := by
  intro snap
  induction snap with
  | nil => intro store _ a ha; simp [sweep_users] at ha
  | cons u rest ih =>
      intro store h a ha
      simp only [sweep_users, List.mem_append] at ha
      rcases ha with ha | ha
      · by_cases hu : u.user_id = uid
        · rw [h u (List.mem_cons_self _ _) hu store] at ha
          simp at ha
        · rw [sweep_step_subject a ha]; exact hu
      · exact ih (fun v hv => h v (List.mem_cons_of_mem _ hv)) a ha

/-- The effects of `kick_user` when ban/unban goes through. -/
theorem kick_user_acts {ctx : SweepCtx} {uid : Nat} (store : List UserData)
    (hban : ctx.env.banUnbanFails uid = false) :
    (kick_user ctx store uid).1 = remove_user store uid ∧
    Action.banUnban uid ∈ (kick_user ctx store uid).2 ∧
    (ctx.env.userNotifyFails uid = false →
      Action.notifyUserKick uid ∈ (kick_user ctx store uid).2) ∧
    (∀ ad ∈ ctx.admin_ids, ctx.env.adminNotifyFails ad = false →
      Action.notifyAdminKick ad uid ∈ (kick_user ctx store uid).2) := by
  unfold kick_user
  rw [if_neg (by simp [hban])]
  refine ⟨rfl, List.mem_cons_self _ _, ?_, ?_⟩
  · intro hun
    apply List.mem_cons_of_mem
    apply List.mem_append_left
    rw [if_neg (by simp [hun])]
    exact List.mem_singleton.mpr rfl
  · intro ad had hfa
    apply List.mem_cons_of_mem
    apply List.mem_append_right
    exact List.mem_filterMap.mpr ⟨ad, had, by rw [if_neg (by simp [hfa])]⟩

/-- Sweeping a snapshot that contains a lapsed record removes that user's
record and (transport willing) emits the full revocation notification set. -/
theorem sweep_users_kick {ctx : SweepCtx} {now : ℚ} {w : UserData} {e : ℚ}
    (he : w.expires_at = some e) (hle : e ≤ now)
    (hban : ctx.env.banUnbanFails w.user_id = false) :
    ∀ (snap store : List UserData), w ∈ snap →
      w.user_id ∉ storeIds (sweep_users ctx now store snap).1 ∧
      Action.banUnban w.user_id ∈ (sweep_users ctx now store snap).2 ∧
      (ctx.env.userNotifyFails w.user_id = false →
        Action.notifyUserKick w.user_id ∈ (sweep_users ctx now store snap).2) ∧
      (∀ ad ∈ ctx.admin_ids, ctx.env.adminNotifyFails ad = false →
        Action.notifyAdminKick ad w.user_id ∈ (sweep_users ctx now store snap).2) := by
  intro snap
  induction snap with
  | nil => intro store hmem; cases hmem
  | cons u rest ih =>
      intro store hmem
      rcases List.mem_cons.mp hmem with heq | hmem'
      · subst heq
        have hstep : sweep_step ctx now store w = kick_user ctx store w.user_id := by
          rw [sweep_step_of_exp he, if_pos hle]
        obtain ⟨hs, hb, hu, ha⟩ := kick_user_acts store hban
        have habsent : w.user_id ∉ storeIds (kick_user ctx store w.user_id).1 := by
          rw [hs]; exact not_mem_storeIds_remove store w.user_id
        refine ⟨?_, ?_, ?_, ?_⟩
        · show w.user_id ∉ storeIds (sweep_users ctx now (sweep_step ctx now store w).1 rest).1
          rw [hstep]
          exact sweep_users_not_mem habsent
        · show Action.banUnban w.user_id ∈
            (sweep_step ctx now store w).2 ++ (sweep_users ctx now (sweep_step ctx now store w).1 rest).2
          rw [hstep]
          exact List.mem_append_left _ hb
        · intro hun
          show Action.notifyUserKick w.user_id ∈
            (sweep_step ctx now store w).2 ++ (sweep_users ctx now (sweep_step ctx now store w).1 rest).2
          rw [hstep]
          exact List.mem_append_left _ (hu hun)
        · intro ad had hfa
          show Action.notifyAdminKick ad w.user_id ∈
            (sweep_step ctx now store w).2 ++ (sweep_users ctx now (sweep_step ctx now store w).1 rest).2
          rw [hstep]
          exact List.mem_append_left _ (ha ad had hfa)
      · obtain ⟨h1, h2, h3, h4⟩ := ih (sweep_step ctx now store u).1 hmem'
        refine ⟨h1, List.mem_append_right _ h2, fun hun => List.mem_append_right _ (h3 hun),
          fun ad had hfa => List.mem_append_right _ (h4 ad had hfa)⟩

theorem get_user_split {store : List UserData} {uid : Nat} {w : UserData}
    (h : get_user store uid = some w) :
    ∃ pre post, store = pre ++ w :: post ∧ uid ∉ storeIds pre := by
  induction store with
  | nil => cases h
  | cons u rest ih =>
      rw [get_user_cons] at h
      by_cases hu : u.user_id = uid
      · rw [if_pos hu] at h
        cases h
        exact ⟨[], rest, rfl, by simp [storeIds]⟩
      · rw [if_neg hu] at h
        obtain ⟨pre, post, heq, hpre⟩ := ih h
        refine ⟨u :: pre, post, by rw [heq]; rfl, ?_⟩
        rw [storeIds_cons]
        simp only [List.mem_cons, not_or]
        exact ⟨fun he => hu he.symm, hpre⟩

theorem nodup_not_mem_post {pre post : List UserData} {w : UserData}
    (hnd : (storeIds (pre ++ w :: post)).Nodup) : w.user_id ∉ storeIds post := by
  have heq : storeIds (pre ++ w :: post) = storeIds pre ++ w.user_id :: storeIds post := by
    simp [storeIds]
  rw [heq] at hnd
  exact (List.nodup_cons.mp (List.nodup_append.mp hnd).2.1).1

/-- On a duplicate-free store (the dict invariant), `get_user` finds the only
record carrying that id. -/
theorem get_user_unique {store : List UserData} {uid : Nat} {w : UserData}
    (hnd : (storeIds store).Nodup) (h : get_user store uid = some w) :
    ∀ v ∈ store, v.user_id = uid → v = w := by
  obtain ⟨pre, post, heq, hpre⟩ := get_user_split h
  have hw : w.user_id = uid := (get_user_mem h).2
  subst heq
  have hpost : uid ∉ storeIds post := hw ▸ nodup_not_mem_post hnd
  intro v hv hvid
  rcases List.mem_append.mp hv with hv | hv
  · exact absurd (mem_storeIds.mpr ⟨v, hv, hvid⟩) hpre
  · rcases List.mem_cons.mp hv with hv | hv
    · exact hv
    · exact absurd (mem_storeIds.mpr ⟨v, hv, hvid⟩) hpost

theorem sweep_users_nodup {ctx : SweepCtx} {now : ℚ} :
    ∀ {snap store : List UserData}, (storeIds store).Nodup →
      (storeIds (sweep_users ctx now store snap).1).Nodup := by
  intro snap
  induction snap with
  | nil => intro store h; exact h
  | cons u rest ih =>
      intro store h
      exact ih ((sweep_step_ids_sublist ctx now store u).nodup h)

/-- Sweeping a snapshot whose unique record for this user is in the warning
window marks it `warning_sent` (and notifies, transport willing) without
removing it. -/
theorem sweep_users_warn {ctx : SweepCtx} {now : ℚ} {w : UserData} {e : ℚ}
    (he : w.expires_at = some e) (hnle : ¬ e ≤ now)
    (hthr : (e - now) / 3600 ≤ ctx.warning_hours) (hws : w.warning_sent = false)
    (hvip : is_vip ctx.vips w.user_id = false) :
    ∀ (pre post store : List UserData),
      w.user_id ∉ storeIds pre → w.user_id ∉ storeIds post →
      get_user store w.user_id = some w →
      get_user (sweep_users ctx now store (pre ++ w :: post)).1 w.user_id =
        some { w with warning_sent := true } ∧
      (ctx.env.userNotifyFails w.user_id = false →
        Action.notifyUserWarning w.user_id ∈
          (sweep_users ctx now store (pre ++ w :: post)).2) := by
  intro pre
  induction pre with
  | nil =>
      intro post store _ hpost hget
      have hstep : sweep_step ctx now store w = send_warning ctx store w.user_id := by
        rw [sweep_step_of_exp he, if_neg hnle, if_pos ⟨hthr, hws, hvip⟩]
      have hsw := send_warning_of_exp ctx hget he
      have hget1 : get_user (sweep_step ctx now store w).1 w.user_id =
          some { w with warning_sent := true } := by
        rw [hstep, hsw]
        show get_user (updateUser store w.user_id fun v => { v with warning_sent := true })
          w.user_id = _
        rw [get_user_update_self (f := fun v => { v with warning_sent := true })
          (fun v => rfl), hget]
        rfl
      constructor
      · show get_user (sweep_users ctx now (sweep_step ctx now store w).1 post).1 w.user_id = _
        rw [sweep_users_frame (fun v hv hequ => hpost (mem_storeIds.mpr ⟨v, hv, hequ⟩))]
        exact hget1
      · intro hun
        show Action.notifyUserWarning w.user_id ∈
          (sweep_step ctx now store w).2 ++ (sweep_users ctx now (sweep_step ctx now store w).1 post).2
        apply List.mem_append_left
        rw [hstep, hsw]
        apply List.mem_append_left
        rw [if_neg (by simp [hun])]
        exact List.mem_singleton.mpr rfl
  | cons p pre' ih =>
      intro post store hpre hpost hget
      rw [storeIds_cons] at hpre
      simp only [List.mem_cons, not_or] at hpre
      have hp : p.user_id ≠ w.user_id := fun he2 => hpre.1 he2.symm
      have hget1 : get_user (sweep_step ctx now store p).1 w.user_id = some w := by
        rw [sweep_step_frame hp]; exact hget
      obtain ⟨h1, h2⟩ := ih post (sweep_step ctx now store p).1 hpre.2 hpost hget1
      exact ⟨h1, fun hun => List.mem_append_right _ (h2 hun)⟩

/-! Upsert computation lemmas. -/

theorem applyUsername_expires (uname : Option String) (u : UserData) :
    (applyUsername uname u).expires_at = u.expires_at := by
  cases uname with
  | none => rfl
  | some s => by_cases hs : s = "" <;> simp [applyUsername, hs]

theorem applyUsername_warning (uname : Option String) (u : UserData) :
    (applyUsername uname u).warning_sent = u.warning_sent := by
  cases uname with
  | none => rfl
  | some s => by_cases hs : s = "" <;> simp [applyUsername, hs]

theorem applyHours_active {now h e : ℚ} {u : UserData}
    (hexp : u.expires_at = some e) (hlt : now < e) :
    applyHours now (some h) u =
      { u with expires_at := some (e + h * 3600), warning_sent := false } := by
  unfold applyHours
  rw [hexp]
  dsimp only
  rw [if_pos hlt]

theorem applyHours_lapsed {now h e : ℚ} {u : UserData}
    (hexp : u.expires_at = some e) (hnlt : ¬ now < e) :
    applyHours now (some h) u =
      { u with expires_at := some (now + h * 3600), warning_sent := false } := by
  unfold applyHours
  rw [hexp]
  dsimp only
  rw [if_neg hnlt]

theorem applyHours_noexp {now h : ℚ} {u : UserData} (hexp : u.expires_at = none) :
    applyHours now (some h) u =
      { u with expires_at := some (now + h * 3600), warning_sent := false } := by
  unfold applyHours
  rw [hexp]

theorem upsert_user_id (now : ℚ) (hours : Option ℚ) (uname : Option String)
    (u : UserData) :
    (applyHours now hours (applyUsername uname u)).user_id = u.user_id :=
  (applyHours_user_id now hours _).trans (applyUsername_user_id uname u)

theorem add_or_update_user_present {store : List UserData} {now : ℚ} {uid : Nat}
    {uname : Option String} {hours : Option ℚ} {u0 : UserData}
    (h : get_user store uid = some u0) :
    add_or_update_user store now uid uname hours =
      (updateUser store uid (fun u => applyHours now hours (applyUsername uname u)),
       applyHours now hours (applyUsername uname u0)) := by
  unfold add_or_update_user
  rw [h]
  simp only [Option.isSome_some, if_true]
  rw [get_user_update_self (fun u => upsert_user_id now hours uname u), h]
  rfl

theorem add_or_update_user_absent {store : List UserData} {now : ℚ} {uid : Nat}
    {uname : Option String} {hours : Option ℚ}
    (h : get_user store uid = none) :
    add_or_update_user store now uid uname hours =
      (updateUser (store ++ [mkUserData uid uname]) uid
        (fun u => applyHours now hours (applyUsername uname u)),
       applyHours now hours (applyUsername uname (mkUserData uid uname))) := by
  unfold add_or_update_user
  rw [h]
  simp only [Option.isSome_none, Bool.false_eq_true, if_false]
  have hmk : get_user (store ++ [mkUserData uid uname]) uid =
      some (mkUserData uid uname) := by
    rw [get_user_append h, get_user_cons,
      if_pos (show (mkUserData uid uname).user_id = uid from rfl)]
  rw [get_user_update_self (fun u => upsert_user_id now hours uname u), hmk]
  rfl

theorem get_user_after_upsert {store : List UserData} {now : ℚ} {uid : Nat}
    {uname : Option String} {hours : Option ℚ} :
    get_user (add_or_update_user store now uid uname hours).1 uid =
      some (add_or_update_user store now uid uname hours).2 := by
  cases h : get_user store uid with
  | some u0 =>
      rw [add_or_update_user_present h]
      show get_user (updateUser store uid _) uid = _
      rw [get_user_update_self (fun u => upsert_user_id now hours uname u), h]
      rfl
  | none =>
      rw [add_or_update_user_absent h]
      show get_user (updateUser (store ++ [mkUserData uid uname]) uid _) uid = _
      rw [get_user_update_self (fun u => upsert_user_id now hours uname u),
        get_user_append h, get_user_cons,
        if_pos (show (mkUserData uid uname).user_id = uid from rfl)]
      rfl

theorem applyHours_some_warning (now h : ℚ) (u : UserData) :
    (applyHours now (some h) u).warning_sent = false := by
  cases hexp : u.expires_at with
  | none => rw [applyHours_noexp hexp]
  | some e =>
      by_cases hlt : now < e
      · rw [applyHours_active hexp hlt]
      · rw [applyHours_lapsed hexp hlt]

/-! Claim theorems. -/

/-- C1: for every user and every `hours > 0`, `DataManager.add_or_update_user`
follows the extend-or-renew rule: a record with `expires_at` strictly in the
future gets `old + hours`; an absent record, an expiry-less record, or a
lapsed one gets `now + hours`; in both cases `warning_sent` is reset to
`false`, on the stored record (returned by a fresh lookup) as well as on the
returned one. -/
theorem C1_upsert_extend_or_renew (store : List UserData) (now : ℚ) (uid : Nat)
    (uname : Option String) (h : ℚ) (_hpos : 0 < h) :
    (∀ u0 e, get_user store uid = some u0 → u0.expires_at = some e → now < e →
      (add_or_update_user store now uid uname (some h)).2.expires_at =
        some (e + h * 3600) ∧
      (add_or_update_user store now uid uname (some h)).2.warning_sent = false ∧
      get_user (add_or_update_user store now uid uname (some h)).1 uid =
        some (add_or_update_user store now uid uname (some h)).2) ∧
    ((get_user store uid = none ∨
      ∃ u0, get_user store uid = some u0 ∧
        (u0.expires_at = none ∨ ∃ e, u0.expires_at = some e ∧ e ≤ now)) →
      (add_or_update_user store now uid uname (some h)).2.expires_at =
        some (now + h * 3600) ∧
      (add_or_update_user store now uid uname (some h)).2.warning_sent = false ∧
      get_user (add_or_update_user store now uid uname (some h)).1 uid =
        some (add_or_update_user store now uid uname (some h)).2) := by
  constructor
  · intro u0 e hget hexp hlt
    refine ⟨?_, ?_, get_user_after_upsert⟩
    · rw [add_or_update_user_present hget]
      show (applyHours now (some h) (applyUsername uname u0)).expires_at = _
      rw [applyHours_active ((applyUsername_expires uname u0).trans hexp) hlt]
    · rw [add_or_update_user_present hget]
      exact applyHours_some_warning now h _
  · intro hcase
    refine ⟨?_, ?_, get_user_after_upsert⟩
    · rcases hcase with hnone | ⟨u0, hget, hu0⟩
      · rw [add_or_update_user_absent hnone]
        show (applyHours now (some h) (applyUsername uname (mkUserData uid uname))).expires_at = _
        rw [applyHours_noexp
          ((applyUsername_expires uname (mkUserData uid uname)).trans rfl)]
      · rcases hu0 with hexp | ⟨e, hexp, hle⟩
        · rw [add_or_update_user_present hget]
          show (applyHours now (some h) (applyUsername uname u0)).expires_at = _
          rw [applyHours_noexp ((applyUsername_expires uname u0).trans hexp)]
        · rw [add_or_update_user_present hget]
          show (applyHours now (some h) (applyUsername uname u0)).expires_at = _
          rw [applyHours_lapsed ((applyUsername_expires uname u0).trans hexp)
            (not_lt.mpr hle)]
    · rcases hcase with hnone | ⟨u0, hget, _⟩
      · rw [add_or_update_user_absent hnone]
        exact applyHours_some_warning now h _
      · rw [add_or_update_user_present hget]
        exact applyHours_some_warning now h _

/-- Witness for C1: user 1 holds an active grant expiring at 7200 s with a
pending warning flag; granting one hour at time 0 extends it to
7200 + 3600 s. -/
theorem C1_upsert_extend_or_renew_witness :
    (0 : ℚ) < 1 ∧
    (add_or_update_user [⟨1, none, some 7200, true⟩] 0 1 none (some 1)).2.expires_at =
      some (7200 + 1 * 3600) := by
  refine ⟨by norm_num, ?_⟩
  exact ((C1_upsert_extend_or_renew [⟨1, none, some 7200, true⟩] 0 1 none 1
    (by norm_num)).1 ⟨1, none, some 7200, true⟩ 7200 rfl rfl (by norm_num)).1

/-- C2: every inbound join request from an allowlisted id is approved as VIP
regardless of the grant store; otherwise a valid grant gets an approval; and
otherwise the request is left pending — never declined — with one admin
notification per admin whose text ends in the requester's id (the `/add`
hint). -/
theorem C2_join_request_decision (vips : List Nat) (store : List UserData)
    (now : ℚ) (uid : Nat) (uname : Option String) (admins : List Nat)
    (declinedMessage : String → String) :
    (is_vip vips uid = true →
      handle_join_request vips store now uid uname admins declinedMessage =
        .approvedVip) ∧
    (is_vip vips uid = false → has_valid_access store now uid = true →
      handle_join_request vips store now uid uname admins declinedMessage =
        .approvedActive) ∧
    (is_vip vips uid = false → has_valid_access store now uid = false →
      ∃ msgs, handle_join_request vips store now uid uname admins declinedMessage =
          .leftPending msgs ∧
        msgs.length = admins.length ∧
        ∀ m ∈ msgs, ∃ s, m = s ++ toString uid) ∧
    handle_join_request vips store now uid uname admins declinedMessage ≠
      .declined := by
  refine ⟨?_, ?_, ?_, ?_⟩
  · intro hvip
    simp [handle_join_request, hvip]
  · intro hvip hacc
    simp [handle_join_request, hvip, hacc]
  · intro hvip hacc
    have hres : handle_join_request vips store now uid uname admins declinedMessage =
        .leftPending (admins.map (fun _ =>
          declinedMessage ("@" ++ join_request_name uid uname) ++
            "\n\nℹ️ Заявка висит. Добавьте доступ командой:\n/add " ++ toString uid)) := by
      unfold handle_join_request
      rw [if_neg (by simp [hvip]), if_neg (by simp [hacc])]
    refine ⟨_, hres, List.length_map _ _, ?_⟩
    intro m hm
    rcases List.mem_map.mp hm with ⟨ad, _, hmsg⟩
    exact ⟨_, hmsg.symm⟩
  · unfold handle_join_request
    by_cases hvip : is_vip vips uid
    · simp [hvip]
    · by_cases hacc : has_valid_access store now uid <;> simp [hvip, hacc]

/-- Witness for C2: with allowlist `[7]` and a store granting user 8 until
100 s, user 7 is approved as VIP, user 8 as active, and user 9 is left
pending with two admin hints ending in `9`. -/
theorem C2_join_request_decision_witness :
    handle_join_request [7] [⟨8, none, some 100, false⟩] 0 7 none [1, 2]
      (fun s => s) = .approvedVip ∧
    handle_join_request [7] [⟨8, none, some 100, false⟩] 0 8 none [1, 2]
      (fun s => s) = .approvedActive ∧
    ∃ msgs, handle_join_request [7] [⟨8, none, some 100, false⟩] 0 9 none [1, 2]
        (fun s => s) = .leftPending msgs ∧
      msgs.length = 2 ∧ ∀ m ∈ msgs, ∃ s, m = s ++ toString 9 := by
  refine ⟨(C2_join_request_decision [7] [⟨8, none, some 100, false⟩] 0 7 none
      [1, 2] (fun s => s)).1 (by decide),
    (C2_join_request_decision [7] [⟨8, none, some 100, false⟩] 0 8 none
      [1, 2] (fun s => s)).2.1 (by decide) (by decide), ?_⟩
  obtain ⟨msgs, hres, hlen, hmem⟩ :=
    (C2_join_request_decision [7] [⟨8, none, some 100, false⟩] 0 9 none
      [1, 2] (fun s => s)).2.2.1 (by decide) (by decide)
  exact ⟨msgs, hres, hlen, hmem⟩

/-- C3: a sweeper tick over a store holding a lapsed record (`expires_at ≤
now`) bans/unbans the user, notifies them and every admin, and deletes the
record; an immediately following tick neither finds the record nor emits any
action about that user. (Transport assumed up, per the failure flags.) -/
theorem C3_sweep_revokes_then_noop (ctx : SweepCtx) (now now2 : ℚ)
    (store : List UserData) (w : UserData) (e : ℚ)
    (hmem : w ∈ store) (he : w.expires_at = some e) (hle : e ≤ now)
    (hban : ctx.env.banUnbanFails w.user_id = false)
    (huser : ctx.env.userNotifyFails w.user_id = false)
    (hadmin : ∀ ad ∈ ctx.admin_ids, ctx.env.adminNotifyFails ad = false) :
    get_user (check_users_tick ctx now store).1 w.user_id = none ∧
    Action.banUnban w.user_id ∈ (check_users_tick ctx now store).2 ∧
    Action.notifyUserKick w.user_id ∈ (check_users_tick ctx now store).2 ∧
    (∀ ad ∈ ctx.admin_ids,
      Action.notifyAdminKick ad w.user_id ∈ (check_users_tick ctx now store).2) ∧
    get_user (check_users_tick ctx now2 (check_users_tick ctx now store).1).1
      w.user_id = none ∧
    (∀ a ∈ (check_users_tick ctx now2 (check_users_tick ctx now store).1).2,
      a.subject ≠ w.user_id) := by
  obtain ⟨h1, h2, h3, h4⟩ :=
    sweep_users_kick he hle hban store store hmem
  refine ⟨get_user_eq_none.mpr h1, h2, h3 huser,
    fun ad had => h4 ad had (hadmin ad had), ?_, ?_⟩
  · exact get_user_eq_none.mpr (sweep_users_not_mem h1)
  · intro a ha hsub
    exact h1 (hsub ▸ sweep_users_subject ha)

/-- Witness for C3: a single lapsed record for user 3 at its expiry instant,
one admin, fully working transport: the tick removes the record and records
the ban/unban. -/
theorem C3_sweep_revokes_then_noop_witness :
    get_user (check_users_tick ⟨⟨fun _ => false, fun _ => false, fun _ => false⟩,
      [], [5], 24⟩ 10 [⟨3, none, some 10, false⟩]).1 3 = none ∧
    Action.banUnban 3 ∈ (check_users_tick ⟨⟨fun _ => false, fun _ => false,
      fun _ => false⟩, [], [5], 24⟩ 10 [⟨3, none, some 10, false⟩]).2 := by
  have hth := C3_sweep_revokes_then_noop
    ⟨⟨fun _ => false, fun _ => false, fun _ => false⟩, [], [5], 24⟩ 10 10
    [⟨3, none, some 10, false⟩] ⟨3, none, some 10, false⟩ 10
    (List.mem_singleton.mpr rfl) rfl (le_refl _) rfl rfl (by decide)
  exact ⟨hth.1, hth.2.1⟩

/-- C4: a sweeper tick over a duplicate-free store whose record for the user
is in the future, within the warning threshold, unwarned, and not
allowlisted, marks exactly that record `warning_sent := true` (keeping it in
the store with the same expiry) and emits the user warning; any later tick
run strictly before the expiry emits no action at all about that user. -/
theorem C4_warning_sent_once (ctx : SweepCtx) (now now2 : ℚ)
    (store : List UserData) (w : UserData) (e : ℚ)
    (hnd : (storeIds store).Nodup)
    (hget : get_user store w.user_id = some w)
    (he : w.expires_at = some e) (hfut : now < e)
    (hthr : (e - now) / 3600 ≤ ctx.warning_hours)
    (hws : w.warning_sent = false)
    (hvip : is_vip ctx.vips w.user_id = false)
    (huser : ctx.env.userNotifyFails w.user_id = false) :
    get_user (check_users_tick ctx now store).1 w.user_id =
      some { w with warning_sent := true } ∧
    Action.notifyUserWarning w.user_id ∈ (check_users_tick ctx now store).2 ∧
    (now2 < e →
      ∀ a ∈ (check_users_tick ctx now2 (check_users_tick ctx now store).1).2,
        a.subject ≠ w.user_id) := by
  obtain ⟨pre, post, heq, hpre⟩ := get_user_split hget
  have hpost : w.user_id ∉ storeIds post := nodup_not_mem_post (heq ▸ hnd)
  have hmain := sweep_users_warn he (not_le.mpr hfut) hthr hws hvip
    pre post store hpre hpost hget
  have hget1 : get_user (check_users_tick ctx now store).1 w.user_id =
      some { w with warning_sent := true } := by
    show get_user (sweep_users ctx now store store).1 w.user_id = _
    rw [heq]
    exact (heq ▸ hmain).1
  have hact1 : Action.notifyUserWarning w.user_id ∈
      (check_users_tick ctx now store).2 := by
    show Action.notifyUserWarning w.user_id ∈ (sweep_users ctx now store store).2
    rw [heq]
    exact (heq ▸ hmain).2 huser
  refine ⟨hget1, hact1, ?_⟩
  intro hn2
  have hnd1 : (storeIds (check_users_tick ctx now store).1).Nodup :=
    sweep_users_nodup hnd
  have hinert : ∀ v ∈ (check_users_tick ctx now store).1,
      v.user_id = w.user_id → ∀ s, sweep_step ctx now2 s v = (s, []) := by
    intro v hv hvid s
    have hv2 : v = { w with warning_sent := true } :=
      get_user_unique hnd1 hget1 v hv hvid
    subst hv2
    rw [sweep_step_of_exp
      (show ({ w with warning_sent := true } : UserData).expires_at = some e from he),
      if_neg (not_le.mpr hn2), if_neg (by intro hc; simp at hc)]
  exact sweep_users_no_subject hinert

/-- Witness for C4: user 3 expires at 3600 s, threshold 24 h, tick at time 0
marks the record warned and keeps it. -/
theorem C4_warning_sent_once_witness :
    get_user (check_users_tick ⟨⟨fun _ => false, fun _ => false, fun _ => false⟩,
      [], [5], 24⟩ 0 [⟨3, none, some 3600, false⟩]).1 3 =
      some ⟨3, none, some 3600, true⟩ ∧
    Action.notifyUserWarning 3 ∈ (check_users_tick ⟨⟨fun _ => false,
      fun _ => false, fun _ => false⟩, [], [5], 24⟩ 0
      [⟨3, none, some 3600, false⟩]).2 := by
  have hth := C4_warning_sent_once
    ⟨⟨fun _ => false, fun _ => false, fun _ => false⟩, [], [5], 24⟩ 0 5
    [⟨3, none, some 3600, false⟩] ⟨3, none, some 3600, false⟩ 3600
    (by decide) rfl rfl (by norm_num) (by norm_num) rfl rfl rfl
  exact ⟨hth.1, hth.2.1⟩

/-- C9: during revocation of a lapsed record, a ban/unban failure aborts
`kick_user` before any notification or deletion (the record survives, and a
later tick still sees it untouched so it retries), while notification
failures — to the user or any admin — never prevent the deletion. -/
theorem C9_revocation_failure_semantics (ctx : SweepCtx) (store : List UserData)
    (uid : Nat) :
    (ctx.env.banUnbanFails uid = true → kick_user ctx store uid = (store, [])) ∧
    (ctx.env.banUnbanFails uid = false →
      get_user (kick_user ctx store uid).1 uid = none) ∧
    (∀ now (w : UserData) (e : ℚ), (storeIds store).Nodup →
      get_user store uid = some w → w.expires_at = some e → e ≤ now →
      ctx.env.banUnbanFails uid = true →
      get_user (check_users_tick ctx now store).1 uid = some w) := by
  refine ⟨?_, ?_, ?_⟩
  · intro hban
    unfold kick_user
    rw [if_pos (by simp [hban])]
  · intro hban
    unfold kick_user
    rw [if_neg (by simp [hban])]
    exact get_user_remove_self store uid
  · intro now w e hnd hget he hle hban
    have hinert : ∀ v ∈ store, v.user_id = uid →
        ∀ s, sweep_step ctx now s v = (s, []) := by
      intro v hv hvid s
      have hv2 : v = w := get_user_unique hnd hget v hv hvid
      subst hv2
      rw [sweep_step_of_exp he, if_pos hle]
      unfold kick_user
      rw [hvid, if_pos (by simp [hban])]
    calc get_user (check_users_tick ctx now store).1 uid
        = get_user store uid := sweep_users_inert_frame hinert
      _ = some w := hget

/-- Witness for C9: with a failing ban/unban the store survives untouched;
with ban/unban up but both notification channels down, the record is still
deleted. -/
theorem C9_revocation_failure_semantics_witness :
    kick_user ⟨⟨fun _ => true, fun _ => false, fun _ => false⟩, [], [5], 24⟩
      [⟨3, none, some 10, false⟩] 3 = ([⟨3, none, some 10, false⟩], []) ∧
    get_user (kick_user ⟨⟨fun _ => false, fun _ => true, fun _ => true⟩,
      [], [5], 24⟩ [⟨3, none, some 10, false⟩] 3).1 3 = none := by
  refine ⟨(C9_revocation_failure_semantics
      ⟨⟨fun _ => true, fun _ => false, fun _ => false⟩, [], [5], 24⟩
      [⟨3, none, some 10, false⟩] 3).1 rfl,
    (C9_revocation_failure_semantics
      ⟨⟨fun _ => false, fun _ => true, fun _ => true⟩, [], [5], 24⟩
      [⟨3, none, some 10, false⟩] 3).2.1 rfl⟩

theorem applyUsername_mk (uid : Nat) (uname : Option String) :
    applyUsername uname (mkUserData uid uname) = mkUserData uid uname := by
  cases uname with
  | none => rfl
  | some s => by_cases hs : s = "" <;> simp [applyUsername, hs, mkUserData]

theorem updateUser_congr_id {store : List UserData} {uid : Nat}
    {f : UserData → UserData} (h : ∀ u ∈ store, u.user_id = uid → f u = u) :
    updateUser store uid f = store := by
  induction store with
  | nil => rfl
  | cons u rest ih =>
      rw [updateUser_cons]
      by_cases hu : u.user_id = uid
      · rw [if_pos hu, h u (List.mem_cons_self _ _) hu,
          ih (fun v hv hvid => h v (List.mem_cons_of_mem _ hv) hvid)]
      · rw [if_neg hu, ih (fun v hv hvid => h v (List.mem_cons_of_mem _ hv) hvid)]

/-- C10: `add_or_update_user` with no hours only refreshes the display name
of an existing record, leaving `expires_at` and `warning_sent` alone; on an
absent user it appends a record with `expires_at = None`, which
`has_valid_access` reports `false` at every instant and which every sweeper
tick skips — no action ever concerns it and it stays in the store as is. -/
theorem C10_upsert_no_hours_frame (store : List UserData) (now : ℚ) (uid : Nat)
    (uname : Option String) :
    (∀ u0, get_user store uid = some u0 →
      get_user (add_or_update_user store now uid uname none).1 uid =
        some (applyUsername uname u0) ∧
      (applyUsername uname u0).expires_at = u0.expires_at ∧
      (applyUsername uname u0).warning_sent = u0.warning_sent) ∧
    (get_user store uid = none →
      (add_or_update_user store now uid uname none).1 =
        store ++ [mkUserData uid uname] ∧
      get_user (add_or_update_user store now uid uname none).1 uid =
        some (mkUserData uid uname) ∧
      (mkUserData uid uname).expires_at = none ∧
      (∀ now2, has_valid_access (add_or_update_user store now uid uname none).1
        now2 uid = false) ∧
      (∀ ctx now2,
        get_user (check_users_tick ctx now2
          (add_or_update_user store now uid uname none).1).1 uid =
            some (mkUserData uid uname) ∧
        ∀ a ∈ (check_users_tick ctx now2
            (add_or_update_user store now uid uname none).1).2,
          a.subject ≠ uid)) := by
  constructor
  · intro u0 hget
    refine ⟨?_, applyUsername_expires uname u0, applyUsername_warning uname u0⟩
    rw [add_or_update_user_present hget]
    show get_user (updateUser store uid _) uid = _
    rw [get_user_update_self (fun u => upsert_user_id now none uname u), hget]
    rfl
  · intro hnone
    have hstore1 : (add_or_update_user store now uid uname none).1 =
        store ++ [mkUserData uid uname] := by
      rw [add_or_update_user_absent hnone]
      show updateUser (store ++ [mkUserData uid uname]) uid _ = _
      apply updateUser_congr_id
      intro u hu hid
      rcases List.mem_append.mp hu with hu | hu
      · exact absurd (mem_storeIds.mpr ⟨u, hu, hid⟩) (get_user_eq_none.mp hnone)
      · rw [List.mem_singleton.mp hu]
        show applyHours now none (applyUsername uname (mkUserData uid uname)) = _
        rw [applyUsername_mk]
        rfl
    have hget1 : get_user (add_or_update_user store now uid uname none).1 uid =
        some (mkUserData uid uname) := by
      rw [hstore1, get_user_append hnone, get_user_cons,
        if_pos (show (mkUserData uid uname).user_id = uid from rfl)]
    have hin : ∀ v ∈ store ++ [mkUserData uid uname], v.user_id = uid →
        v = mkUserData uid uname := by
      intro v hv hvid
      rcases List.mem_append.mp hv with hv | hv
      · exact absurd (mem_storeIds.mpr ⟨v, hv, hvid⟩) (get_user_eq_none.mp hnone)
      · exact List.mem_singleton.mp hv
    have hinert : ∀ ctx (now2 : ℚ),
        ∀ v ∈ (add_or_update_user store now uid uname none).1, v.user_id = uid →
        ∀ s, sweep_step ctx now2 s v = (s, []) := by
      intro ctx now2 v hv hvid s
      rw [hin v (hstore1 ▸ hv) hvid]
      exact sweep_step_of_noexp rfl
    refine ⟨hstore1, hget1, rfl, ?_, ?_⟩
    · intro now2
      unfold has_valid_access
      rw [hget1]
      rfl
    · intro ctx now2
      constructor
      · show get_user (sweep_users ctx now2 (add_or_update_user store now uid uname none).1
          (add_or_update_user store now uid uname none).1).1 uid = _
        rw [sweep_users_inert_frame (hinert ctx now2)]
        exact hget1
      · exact sweep_users_no_subject (hinert ctx now2)

/-- Witness for C10: upserting absent user 7 with no hours appends an
expiry-less record that has no valid access; upserting existing user 3 with
no hours leaves the record as is. -/
theorem C10_upsert_no_hours_frame_witness :
    (add_or_update_user [] 0 7 none none).1 = [mkUserData 7 none] ∧
    has_valid_access (add_or_update_user [] 0 7 none none).1 123 7 = false ∧
    get_user (add_or_update_user [⟨3, none, some 5, true⟩] 0 3 none none).1 3 =
      some (applyUsername none ⟨3, none, some 5, true⟩) := by
  obtain ⟨ha, _, _, hv, _⟩ := (C10_upsert_no_hours_frame [] 0 7 none).2 rfl
  exact ⟨ha, hv 123,
    ((C10_upsert_no_hours_frame [⟨3, none, some 5, true⟩] 0 3 none).1
      ⟨3, none, some 5, true⟩ rfl).1⟩

/-- C5 counterexample: the preset-button grant path (`callback_add_time`)
applies `hours = -1` without any sign check: the caller gets a grant result,
not an InvalidDuration rejection, and the store is mutated. -/
theorem C5_counterexample_add_time_accepts_nonpositive :
    (callback_add_time [] 0 42 (-1)).2 ≠ GrantAttempt.invalidDuration ∧
    (callback_add_time [] 0 42 (-1)).1 ≠ [] := by
  decide

/-- C5 (amended): the custom-hours entry path rejects `hours ≤ 0`, reports
InvalidDuration, and leaves the store unchanged; the preset-button path
applies the hours with no validation. -/
theorem C5_custom_hours_rejects_nonpositive (store : List UserData) (now : ℚ)
    (stateUserId : Option Nat) (h : ℚ) (hle : h ≤ 0) :
    process_custom_hours store now stateUserId h = (store, .invalidDuration) := by
  unfold process_custom_hours
  rw [if_pos hle]

/-- Witness for the amended C5 at `hours = -1`. -/
theorem C5_custom_hours_rejects_nonpositive_witness :
    (-1 : ℚ) ≤ 0 ∧
    process_custom_hours [] 0 (some 42) (-1) = ([], .invalidDuration) :=
  ⟨by norm_num, C5_custom_hours_rejects_nonpositive [] 0 (some 42) (-1) (by norm_num)⟩

/-- C6 counterexample: user 42 is allowlisted, yet the preset-button path
issues it a timed grant and mutates the store instead of rejecting with
AlreadyVip (it never consults the allowlist). -/
theorem C6_counterexample_add_time_ignores_vip :
    is_vip [42] 42 = true ∧
    (callback_add_time [] 0 42 5).2 ≠ GrantAttempt.alreadyVip ∧
    (callback_add_time [] 0 42 5).1 ≠ [] := by
  decide

/-- C6 (amended): the `/add` id-entry step rejects an allowlisted (non-zero)
id with AlreadyVip and leaves the store unchanged; the add-time button paths
perform no allowlist check. -/
theorem C6_add_user_rejects_vip (vips : List Nat) (store : List UserData)
    (now : ℚ) (uid : Nat) (hnz : uid ≠ 0) (hvip : is_vip vips uid = true) :
    process_user_id vips store now (some uid) = (store, .alreadyVip) := by
  unfold process_user_id
  show (if uid = 0 then (store, GrantAttempt.invalidId)
    else if is_vip vips uid = true then (store, GrantAttempt.alreadyVip)
    else ((add_or_update_user store now uid none none).1,
      GrantAttempt.granted (add_or_update_user store now uid none none).2)) = _
  rw [if_neg hnz, if_pos hvip]

/-- Witness for the amended C6: allowlist `[42]`, id 42. -/
theorem C6_add_user_rejects_vip_witness :
    (42 : Nat) ≠ 0 ∧ is_vip [42] 42 = true ∧
    process_user_id [42] [] 0 (some 42) = ([], .alreadyVip) :=
  ⟨by decide, by decide, C6_add_user_rejects_vip [42] [] 0 42 (by decide) (by decide)⟩

theorem from_dict_to_dict (u : UserData) : from_dict (to_dict u) = u := by
  cases u with
  | mk uid uname hexp hw => cases hexp <;> rfl

/-- C7: serializing every record (`save_data`, via `to_dict`) and reloading
(`load_data`, via `from_dict`) reproduces the store exactly — ids, display
names, expiry instants, and warning flags included. -/
theorem C7_persistence_round_trip (store : List UserData) :
    load_data (save_data store) = store := by
  unfold load_data save_data
  rw [List.map_map]
  have : (fun p : Nat × UserDict => from_dict p.2) ∘
      (fun u : UserData => (u.user_id, to_dict u)) = fun u => u := by
    funext u
    exact from_dict_to_dict u
  rw [this, List.map_id']

/-- Evaluate the formatter once the truncated delta is known to be the
natural number `t`. -/
theorem format_time_remaining_eq (now e : ℚ) (t : Nat) (hlt : now < e)
    (hfloor : ⌊e - now⌋ = (t : ℤ)) :
    format_time_remaining now e =
      (if (if 0 < t / 86400 then [toString (t / 86400) ++ "д"] else []) ++
          (if 0 < t % 86400 / 3600 then [toString (t % 86400 / 3600) ++ "ч"] else []) ++
          (if 0 < t % 86400 % 3600 / 60 ∧ t / 86400 = 0 then
            [toString (t % 86400 % 3600 / 60) ++ "м"] else []) = [] then "< 1м"
       else " ".intercalate
        ((if 0 < t / 86400 then [toString (t / 86400) ++ "д"] else []) ++
          (if 0 < t % 86400 / 3600 then [toString (t % 86400 / 3600) ++ "ч"] else []) ++
          (if 0 < t % 86400 % 3600 / 60 ∧ t / 86400 = 0 then
            [toString (t % 86400 % 3600 / 60) ++ "м"] else []))) := by
  unfold format_time_remaining
  rw [if_neg (not_le.mpr hlt), hfloor, Int.toNat_natCast]

/-- C8: the remaining-time formatter renders the expired marker when
`expires_at ≤ now`, the sub-minute marker when less than 60 s remain, and
otherwise days/hours/minutes with minutes suppressed once a day component
exists — in particular 2 days 3 hours gives `"2д 3ч"` and 45 minutes gives
`"45м"`. -/
theorem C8_format_time_remaining (now e : ℚ) :
    (e ≤ now → format_time_remaining now e = "⏰ Истекло") ∧
    (now < e → e - now < 60 → format_time_remaining now e = "< 1м") ∧
    format_time_remaining 0 (2 * 86400 + 3 * 3600) = "2д 3ч" ∧
    format_time_remaining 0 (45 * 60) = "45м" := by
  refine ⟨?_, ?_, ?_, ?_⟩
  case refine_3 =>
    rw [format_time_remaining_eq 0 (2 * 86400 + 3 * 3600) 183600 (by norm_num)
      (by rw [show (2 * 86400 + 3 * 3600 : ℚ) - 0 = ((183600 : ℤ) : ℚ) by norm_num]
          exact Int.floor_intCast _)]
    decide
  case refine_4 =>
    rw [format_time_remaining_eq 0 (45 * 60) 2700 (by norm_num)
      (by rw [show (45 * 60 : ℚ) - 0 = ((2700 : ℤ) : ℚ) by norm_num]
          exact Int.floor_intCast _)]
    decide
  · intro hle
    unfold format_time_remaining
    rw [if_pos hle]
  · intro hlt hsub
    unfold format_time_remaining
    rw [if_neg (not_le.mpr hlt)]
    have ht : (⌊e - now⌋).toNat < 60 := by
      have h1 : ⌊e - now⌋ < 60 := Int.floor_lt.mpr (by exact_mod_cast hsub)
      omega
    have hdays : (⌊e - now⌋).toNat / 86400 = 0 := Nat.div_eq_of_lt (by omega)
    have hmod : (⌊e - now⌋).toNat % 86400 = (⌊e - now⌋).toNat := Nat.mod_eq_of_lt (by omega)
    have hhrs : (⌊e - now⌋).toNat % 86400 / 3600 = 0 := by
      rw [hmod]; exact Nat.div_eq_of_lt (by omega)
    have hmod2 : (⌊e - now⌋).toNat % 86400 % 3600 = (⌊e - now⌋).toNat := by
      rw [hmod]; exact Nat.mod_eq_of_lt (by omega)
    have hmin : (⌊e - now⌋).toNat % 86400 % 3600 / 60 = 0 := by
      rw [hmod2]; exact Nat.div_eq_of_lt (by omega)
    simp only [hdays, hhrs, hmin]
    simp

/-- Witness for C8: an already-passed expiry renders the expired marker; a
10-second remainder renders the sub-minute marker. -/
theorem C8_format_time_remaining_witness :
    format_time_remaining 5 3 = "⏰ Истекло" ∧
    format_time_remaining 0 10 = "< 1м" :=
  ⟨(C8_format_time_remaining 5 3).1 (by norm_num),
   (C8_format_time_remaining 0 10).2.1 (by norm_num) (by norm_num)⟩

end GroupAccessBot
